import Mathlib

/-!
Verification of the MPI parallelization helper `parallel_over_axes`
(src/omsi/shared/mpi_helper.py) against its natural-language specification.

The embedding translates the Python code into executable Lean definitions:

* Python slice objects and integer coordinates become the `Sel` type; the
  value `main_data[selection]` is kept symbolic as `Val.dataSlice selection`
  (the scheduler never inspects data values, only selections).
* Python dicts used for `task_function_params` become insertion-ordered
  association lists (`assocSet` / `assocLookup` mirror `d[k] = v` / `d[k]`).
  `task_params = self.task_function_params` on line 126/208 is an alias, so
  the embedding of `run_static` returns the mutated stored mapping.
* numpy fancy indexing `np.asarray(shape)[split_axes]` becomes
  `npFancyIndex`, including Python/numpy wrap-around of negative indices
  (`pyIdx`) and `IndexError` for out-of-range indices.
* `np.argsort(axes_shapes)[::-1][0]` selects an index of a maximal element;
  for the small arrays involved numpy uses a stable insertion sort, so among
  equal maxima the reversed order yields the LAST index attaining the
  maximum (`argmaxLast`).  All concrete inputs used below are tie-free.
* Exceptions (`IndexError`, `NotImplementedError`, `ValueError`) become
  `Except String`.
* The dynamic scheduler is distributed code; it is embedded as explicit
  state passing over the one nondeterministic input, namely the arrival
  order of the workers' `RANK_MSG` requests at the coordinator
  (`dynCoordinator` takes that order as the `requests : List Nat` argument
  and replays lines 156-194 deterministically).
-/

/-- One component of an index selection: `slice(None)`, `slice(start, stop)`,
or a single integer coordinate (dynamic schedule). -/
inductive Sel where
  | full : Sel
  | slice (start stop : Nat) : Sel
  | coord (c : Nat) : Sel
deriving DecidableEq, Repr

/-- Values flowing through the scheduler.  `dataSlice sel` stands for the
materialized `main_data[sel]`; the scheduler treats it as opaque. -/
inductive Val where
  | nat (n : Nat) : Val
  | str (s : String) : Val
  | dataSlice (sel : List Sel) : Val
deriving DecidableEq, Repr

/-- Python dict assignment `d[k] = v` on an insertion-ordered association
list: replace in place when the key exists, append otherwise. -/
def assocSet (l : List (String × Val)) (k : String) (v : Val) : List (String × Val) :=
  match l with
  | [] => [(k, v)]
  | (k₁, v₁) :: t => if k₁ = k then (k, v) :: t else (k₁, v₁) :: assocSet t k v

/-- Python dict lookup `d[k]` (as an `Option`). -/
def assocLookup (l : List (String × Val)) (k : String) : Option Val :=
  match l with
  | [] => none
  | (k₁, v₁) :: t => if k₁ = k then some v₁ else assocLookup t k

/-- Python/numpy indexing of a sequence of length `n` by a possibly negative
integer: negative indices wrap by `+ n`; out-of-range indices are an
`IndexError` (`none`). -/
def pyIdx (n : Nat) (a : Int) : Option Nat :=
  let a₁ := if a < 0 then a + n else a
  if 0 ≤ a₁ ∧ a₁ < n then some a₁.toNat else none

/-- numpy fancy indexing `np.asarray(shape)[split_axes]` (line 100/158):
the list of extents of the split axes, or `IndexError`. -/
def npFancyIndex (shape : List Nat) (axes : List Int) : Option (List Nat) :=
  match axes with
  | [] => some []
  | a :: rest =>
    match pyIdx shape.length a, npFancyIndex shape rest with
    | some i, some l => some (shape.getD i 0 :: l)
    | _, _ => none

/-- The index `np.argsort(axes_shapes)[::-1][0]` (lines 106-107): the last
position attaining the maximum of the list (numpy's sort is stable on these
small arrays, and the descending view picks the last maximal position). -/
def argmaxLast : List Nat → Nat
  | [] => 0
  | [_] => 0
  | x :: y :: t =>
    let j := argmaxLast (y :: t)
    if x > (y :: t).getD j 0 then 0 else j + 1

/-- The scheduling request: the fields of `parallel_over_axes` relevant to
scheduling (the task callable itself is threaded separately as a function
argument `tf`, since the scheduler only applies it). -/
structure POA where
  task_function_params : List (String × Val)
  main_data_shape : List Nat
  split_axes : List Int
  main_data_param_name : String
  schedule : String
  collect_output : Bool
  root : Nat
deriving DecidableEq, Repr

/-- Constructor `parallel_over_axes.__init__` (lines 38-76): checks only
that MPI is available; `task_function_params = None` becomes `{}`; no
validation of `split_axes` or of `schedule` happens here. -/
def poa_init (mpiAvailable : Bool) (tfParams : Option (List (String × Val)))
    (shape : List Nat) (splitAxes : List Int) (dataParamName : String)
    (schedule : String) (collectOutput : Bool) (root : Nat) : Except String POA :=
  if mpiAvailable then
    .ok { task_function_params := tfParams.getD []
          main_data_shape := shape
          split_axes := splitAxes
          main_data_param_name := dataParamName
          schedule := schedule
          collect_output := collectOutput
          root := root }
  else .error "ValueError"

/-- Output of one rank's execution of a schedule: the returned result, the
stored `task_function_params` after the run (mutated through the alias on
lines 126-127), the parameter mappings of the task invocations made by this
rank, and the warning messages emitted. -/
structure RunOut where
  result : Val
  stored_params : List (String × Val)
  invocations : List (List (String × Val))
  warnings : List String
deriving DecidableEq, Repr

/-- Warning printed on line 105 (a bare `print` on the root rank). -/
def idleWarnMsg : String :=
  "Insufficient number of blocks for number of MPI ranks. Some ranks will remain idle"

/-- Warning issued on line 152. -/
def dynFallbackMsg : String :=
  "DYNAMIC task scheduling requires at least 2 MPI ranks. Using STATIC scheduling instead."

/-- Lines 112-120: `block_size = split_axis_size / size` (Python 2 integer
division), `start_index = rank * block_size`, `stop_index` extended to
`split_axis_size` on the last active rank. -/
def static_block_bounds (split_axis_size size rank : Nat) : Nat × Nat :=
  let block_size := split_axis_size / size
  let start_index := rank * block_size
  let stop_index := start_index + block_size
  (start_index,
    if rank = size - 1 ∧ stop_index ≠ split_axis_size then split_axis_size else stop_index)

/-- `parallel_over_axes.run_static` (lines 87-137) for one rank of a
communicator of `wsize` ranks.  `tf` is the task callable. -/
def run_static (tf : List (String × Val) → Val) (p : POA) (rank wsize : Nat) :
    Except String RunOut :=
  match npFancyIndex p.main_data_shape p.split_axes with
  | none => .error "IndexError"
  | some axes_shapes =>
    let total_num_subblocks := axes_shapes.prod
    let size := if total_num_subblocks < wsize then total_num_subblocks else wsize
    let warns := if total_num_subblocks < wsize ∧ rank = p.root then [idleWarnMsg] else []
    if axes_shapes.isEmpty then .error "IndexError"
    else
      let split_axis := argmaxLast axes_shapes
      let split_axis_size := axes_shapes.getD split_axis 0
      if split_axis_size < size then .error "NotImplementedError"
      else
        -- Reachable only for zero-extent shapes: with `size = 0` (a numpy
        -- int at this point), `split_axis_size / size` emits a
        -- RuntimeWarning and yields `block_size = 0`, and the
        -- `rank == size - 1` comparison on line 118 is against numpy -1
        -- and never true, so the block degenerates to the empty
        -- `slice(0, 0)`.
        let bounds := if size = 0 then (0, 0)
          else static_block_bounds split_axis_size size rank
        if split_axis < p.main_data_shape.length then
          let my_block := (List.range p.main_data_shape.length).map
            (fun i => if i = split_axis then Sel.slice bounds.1 bounds.2 else Sel.full)
          let task_params := assocSet p.task_function_params p.main_data_param_name
              (Val.dataSlice my_block)
          .ok { result := tf task_params
                stored_params := task_params
                invocations := [task_params]
                warnings := warns }
        else .error "IndexError"

/-- Helper for `run_static_all`: the results of ranks `0 .. w-1`, each run
inside a communicator of the fixed size `wsize`. -/
def run_static_ranks (tf : List (String × Val) → Val) (p : POA) (wsize : Nat) :
    Nat → Except String (List RunOut)
  | 0 => .ok []
  | w + 1 =>
    match run_static_ranks tf p wsize w, run_static tf p w wsize with
    | .ok l, .ok r => .ok (l ++ [r])
    | .error e, _ => .error e
    | _, .error e => .error e

/-- Run `run_static` on every rank `0 .. wsize-1` of a communicator of size
`wsize`; the collective `comm.gather(..., root)` (line 132) delivers
exactly this rank-ascending list of per-rank results to the root. -/
def run_static_all (tf : List (String × Val) → Val) (p : POA) (wsize : Nat) :
    Except String (List RunOut) :=
  run_static_ranks tf p wsize wsize

/-- Outcome of calling `run()` on one rank, as far as it is determined
locally: a returned `RunOut`, the `None` returned when the schedule string
matches neither branch (lines 82-85 fall through), or entry into the
multi-process dynamic protocol (modeled separately by `dynCoordinator`). -/
inductive RunBranch where
  | ret (out : RunOut) : RunBranch
  | noneRet (stored : List (String × Val)) : RunBranch
  | dynamicProtocol : RunBranch
deriving DecidableEq, Repr

/-- `parallel_over_axes.run` (lines 78-86) together with the
single-process fallback of `run_dynamic` (lines 148-153). -/
def run_single (tf : List (String × Val) → Val) (p : POA) (rank wsize : Nat) :
    Except String RunBranch :=
  if p.schedule = "DYNAMIC" then
    if wsize < 2 then
      match run_static tf p rank wsize with
      | .ok out => .ok (.ret { out with warnings := dynFallbackMsg :: out.warnings })
      | .error e => .error e
    else .ok .dynamicProtocol
  else if p.schedule = "STATIC" then
    match run_static tf p rank wsize with
    | .ok out => .ok (.ret out)
    | .error e => .error e
  else .ok (.noneRet p.task_function_params)

/-- Line 168: `range(self.main_data.shape[axis_index])` as a list of
coordinate selections for one split axis. -/
def splitCoords (shape : List Nat) (i : Nat) : List Sel :=
  (List.range (shape.getD i 0)).map Sel.coord

/-- Lines 167-168: successively overwrite `base_blocks[axis_index]` with the
coordinate range of each split axis (with Python index wrap-around and
`IndexError` on out-of-range axes). -/
def setSplitBlocks (shape : List Nat) : List Int → List (List Sel) → Option (List (List Sel))
  | [], bb => some bb
  | a :: rest, bb =>
    match pyIdx shape.length a with
    | none => none
    | some i => setSplitBlocks shape rest (bb.set i (splitCoords shape i))

/-- Lines 166-168: `base_blocks = [[slice(None)]] * len(shape)` followed by
the overwriting loop. -/
def dyn_base_blocks (shape : List Nat) (splitAxes : List Int) : Option (List (List Sel)) :=
  setSplitBlocks shape splitAxes (List.replicate shape.length [Sel.full])

/-- `itertools.product(*base_blocks)` (line 169), leftmost factor varying
slowest. -/
def cartProd : List (List Sel) → List (List Sel)
  | [] => [[]]
  | l :: ls => l.flatMap (fun x => (cartProd ls).map (fun t => x :: t))

/-- Lines 172-178: the dispatch loop pairs the running `block_index` with
the successive block selections. -/
def dyn_dispatch_pairs (tuples : List (List Sel)) : List (Nat × List Sel) :=
  (List.range tuples.length).zip tuples

/-- Worker side of `parallel_over_axes.run_dynamic` (lines 197-210),
replayed against the list of `(block_index, block_selection)` assignments
this worker receives before the `(None, None)` sentinel.  Returns the
local result dict `{block_index: task value}` in insertion order (line
210), the stored `task_function_params` after the loop (lines 208-209
mutate it through the same alias as the static path), and the parameter
mappings of the successive task invocations. -/
def dynWorker (tf : List (String × Val) → Val) (params : List (String × Val))
    (name : String) :
    List (Nat × List Sel) →
      List (Nat × Val) × List (String × Val) × List (List (String × Val))
  | [] => ([], params, [])
  | (idx, sel) :: rest =>
    let task_params := assocSet params name (Val.dataSlice sel)
    let value := tf task_params
    let out := dynWorker tf task_params name rest
    ((idx, value) :: out.1, out.2.1, task_params :: out.2.2)

/-- Outcome of the coordinator's termination loop (lines 182-193):
`done collectedKeys unserved` when `np.all(all_ranks_status)` becomes true
(the requests in `unserved` arrived later and are never answered - those
workers block forever); `indexError` when `all_ranks_status[request_rank]`
is indexed out of bounds (line 192); `hang` when the coordinator is still
in the loop but no further request ever arrives. -/
inductive DrainOut where
  | done (collectedKeys : List Nat) (unserved : List Nat) : DrainOut
  | indexError : DrainOut
  | hang : DrainOut
deriving DecidableEq, Repr

/-- Lines 185-192: the termination/collection loop of the coordinator.
`assigned w` is the list of block indices rank `w` received during the
dispatch phase, i.e. the keys of the dict it sends back on line 205. -/
def drain (collectOutput : Bool) (assigned : Nat → List Nat) :
    List Bool → List Nat → List Nat → DrainOut
  | status, collected, reqs =>
    if status.all (fun b => b) then .done collected reqs
    else
      match reqs with
      | [] => .hang
      | r :: rs =>
        let collected₁ := if collectOutput then collected ++ assigned r else collected
        if r < status.length then drain collectOutput assigned (status.set r true) collected₁ rs
        else .indexError

/-- The block indices a worker `w` received during the dispatch phase
(lines 172-178), given the arrival order `phase1` of the first `n`
requests: block `i` went to the `i`-th requester.  These are the keys of
the dict `w` accumulates on line 210 and sends back on line 205. -/
def assignedKeys (n : Nat) (phase1 : List Nat) (w : Nat) : List Nat :=
  ((List.range n).zip phase1).filterMap (fun q => if q.2 = w then some q.1 else none)

/-- Result of the coordinator side of `run_dynamic`: the dispatch record
(block index, selection, receiving worker) and the outcome of the
termination loop. -/
structure CoordOut where
  dispatched : List (Nat × List Sel × Nat)
  outcome : DrainOut
deriving DecidableEq, Repr

/-- Coordinator side of `parallel_over_axes.run_dynamic` (lines 156-194),
replayed against `requests`, the arrival order of the workers' `RANK_MSG`
messages.  The first `N` requests receive the `N` block selections in
enumeration order (lines 172-178); later requests are handled by the
termination loop.  Only the keys of the collected per-worker dicts are
tracked: the values are opaque task results.  If fewer than `N` requests
ever arrive the coordinator blocks inside the dispatch loop (`hang`). -/
def dynCoordinator (wsize root : Nat) (shape : List Nat) (splitAxes : List Int)
    (collectOutput : Bool) (requests : List Nat) : Except String CoordOut :=
  match npFancyIndex shape splitAxes with
  | none => .error "IndexError"
  | some axes_shapes =>
    let total_num_subblocks := axes_shapes.prod
    let size := if total_num_subblocks < wsize then total_num_subblocks else wsize
    match dyn_base_blocks shape splitAxes with
    | none => .error "IndexError"
    | some base =>
      let tuples := cartProd base
      let n := tuples.length
      if requests.length < n then
        .ok { dispatched := (dyn_dispatch_pairs tuples).zipWith
                (fun q w => (q.1, q.2, w)) requests
              outcome := .hang }
      else
        let phase1 := requests.take n
        let rest := requests.drop n
        if root < size then
          let status := (List.replicate size false).set root true
          let assigned := assignedKeys n phase1
          .ok { dispatched := (dyn_dispatch_pairs tuples).zipWith
                  (fun q w => (q.1, q.2, w)) phase1
                outcome := drain collectOutput assigned status [] rest }
        else .error "IndexError"

/-! Basic lemmas about the indexing and dict helpers. -/

lemma pyIdx_of_valid (n : Nat) (a : Int) (h0 : 0 ≤ a) (hn : a < (n : Int)) :
    pyIdx n a = some a.toNat := by
  have hneg : ¬ a < 0 := not_lt.mpr h0
  simp [pyIdx, hneg, h0, hn]

lemma npFancyIndex_of_valid (shape : List Nat) (axes : List Int)
    (hv : ∀ a ∈ axes, 0 ≤ a ∧ a < (shape.length : Int)) :
    npFancyIndex shape axes = some (axes.map (fun a => shape.getD a.toNat 0)) := by
  induction axes with
  | nil => rfl
  | cons a rest ih =>
    have ha := hv a (by simp)
    rw [npFancyIndex, pyIdx_of_valid _ _ ha.1 ha.2,
      ih (fun x hx => hv x (List.mem_cons_of_mem _ hx))]
    rfl

lemma npFancyIndex_eq_none (shape : List Nat) (axes : List Int) (a : Int)
    (ha : a ∈ axes) (hbad : pyIdx shape.length a = none) :
    npFancyIndex shape axes = none := by
  induction axes with
  | nil => cases ha
  | cons x rest ih =>
    rcases List.mem_cons.mp ha with rfl | hm
    · rw [npFancyIndex, hbad]
    · rw [npFancyIndex, ih hm]
      cases pyIdx shape.length x <;> rfl

lemma argmaxLast_lt_length (l : List Nat) (h : l ≠ []) : argmaxLast l < l.length := by
  match l with
  | [_] => simp [argmaxLast]
  | x :: y :: t =>
    have ih := argmaxLast_lt_length (y :: t) (by simp)
    rw [argmaxLast]
    split
    · simp
    · simpa using Nat.succ_lt_succ ih

lemma argmaxLast_getD_mem (l : List Nat) (h : l ≠ []) : l.getD (argmaxLast l) 0 ∈ l := by
  match l with
  | [_] => simp [argmaxLast]
  | x :: y :: t =>
    have ih := argmaxLast_getD_mem (y :: t) (by simp)
    rw [argmaxLast]
    split
    · simp
    · simpa using Or.inr ih

lemma assocLookup_assocSet_self (l : List (String × Val)) (k : String) (v : Val) :
    assocLookup (assocSet l k v) k = some v := by
  induction l with
  | nil => simp [assocSet, assocLookup]
  | cons p t ih =>
    obtain ⟨k₁, v₁⟩ := p
    by_cases hk : k₁ = k
    · subst hk
      simp [assocSet, assocLookup]
    · simp [assocSet, assocLookup, hk, ih]

lemma assocLookup_assocSet_ne (l : List (String × Val)) (k k₂ : String) (v : Val)
    (hne : k₂ ≠ k) :
    assocLookup (assocSet l k v) k₂ = assocLookup l k₂ := by
  have hne₂ : ¬ k = k₂ := fun h => hne h.symm
  induction l with
  | nil => simp [assocSet, assocLookup, hne₂]
  | cons p t ih =>
    obtain ⟨k₁, v₁⟩ := p
    by_cases hk : k₁ = k
    · subst hk
      simp [assocSet, assocLookup, hne₂]
    · by_cases hk₂ : k₁ = k₂
      · subst hk₂
        simp [assocSet, assocLookup, hk]
      · simp [assocSet, assocLookup, hk, hk₂, ih]

lemma valid_axes_length_le (axes : List Int) (n : Nat)
    (hv : ∀ a ∈ axes, 0 ≤ a ∧ a < (n : Int)) (hnd : axes.Nodup) :
    axes.length ≤ n := by
  classical
  have hmap : (axes.map Int.toNat).Nodup := by
    refine List.Nodup.map_on ?_ hnd
    intro x hx y hy hxy
    have hx0 := (hv x hx).1
    have hy0 := (hv y hy).1
    omega
  have hsub : (axes.map Int.toNat).toFinset ⊆ Finset.range n := by
    intro i hi
    simp only [List.mem_toFinset, List.mem_map] at hi
    obtain ⟨a, ha, rfl⟩ := hi
    have := hv a ha
    simp only [Finset.mem_range]
    omega
  calc axes.length = (axes.map Int.toNat).length := by simp
    _ = (axes.map Int.toNat).toFinset.card := (List.toFinset_card_of_nodup hmap).symm
    _ ≤ (Finset.range n).card := Finset.card_le_card hsub
    _ = n := by simp

/-! Lemmas about the Cartesian product of block selections. -/

lemma length_cartProd (ls : List (List Sel)) :
    (cartProd ls).length = (ls.map List.length).prod := by
  induction ls with
  | nil => rfl
  | cons l t ih =>
    rw [cartProd, List.length_flatMap]
    simp only [Function.comp_def, List.length_map, ih]
    rw [List.map_const', List.sum_replicate, smul_eq_mul, List.map_cons, List.prod_cons]

lemma mem_cartProd (ls : List (List Sel)) (t : List Sel) :
    t ∈ cartProd ls ↔ List.Forall₂ (fun s l => s ∈ l) t ls := by
  induction ls generalizing t with
  | nil =>
    simp [cartProd, List.forall₂_nil_right_iff]
  | cons l rest ih =>
    rw [cartProd]
    simp only [List.mem_flatMap, List.mem_map]
    constructor
    · rintro ⟨x, hx, tt, htt, rfl⟩
      exact List.Forall₂.cons hx ((ih tt).mp htt)
    · intro h
      cases h with
      | cons hh htail => exact ⟨_, hh, _, (ih _).mpr htail, rfl⟩

lemma nodup_cartProd (ls : List (List Sel)) (h : ∀ l ∈ ls, l.Nodup) :
    (cartProd ls).Nodup := by
  induction ls with
  | nil => simp [cartProd]
  | cons l rest ih =>
    rw [cartProd]
    apply List.nodup_flatMap.mpr
    constructor
    · intro x _
      refine List.Nodup.map ?_ (ih (fun l₂ h₂ => h _ (List.mem_cons_of_mem _ h₂)))
      intro t₁ t₂ hcons
      injection hcons
    · have hl : l.Nodup := h l (List.mem_cons_self _ _)
      refine hl.imp ?_
      intro x y hxy
      intro t ht₁ ht₂
      simp only [List.mem_map] at ht₁ ht₂
      obtain ⟨t₁, _, rfl⟩ := ht₁
      obtain ⟨t₂, _, he⟩ := ht₂
      injection he with h1 _
      exact hxy h1.symm

/-! Product bookkeeping: the length of the Cartesian product equals the
product of the split-axis extents. -/

lemma prod_range_map_mulAt (n j c : Nat) (g g₁ : Nat → Nat) (hj : j < n)
    (h₁ : g j = c * g₁ j) (h₂ : ∀ i, i ≠ j → g i = g₁ i) :
    ((List.range n).map g).prod = c * ((List.range n).map g₁).prod := by
  induction n with
  | zero => omega
  | succ m ih =>
    rw [List.range_succ, List.map_append, List.prod_append, List.map_append, List.prod_append]
    simp only [List.map_cons, List.map_nil, List.prod_cons, List.prod_nil]
    rcases Nat.lt_succ_iff_lt_or_eq.mp hj with hlt | rfl
    · rw [ih hlt, h₂ m (by omega)]
      ring
    · have hpre : (List.range j).map g = (List.range j).map g₁ := by
        apply List.map_congr_left
        intro i hi
        exact h₂ i (by simp at hi; omega)
      rw [hpre, h₁]
      ring

lemma prod_ite_mem (n : Nat) (sa : List Int) (f : Nat → Nat)
    (hv : ∀ a ∈ sa, 0 ≤ a ∧ a < (n : Int)) (hnd : sa.Nodup) :
    ((List.range n).map (fun (i : Nat) => if (i : Int) ∈ sa then f i else 1)).prod
      = (sa.map (fun a => f a.toNat)).prod := by
  induction sa with
  | nil => simp
  | cons a rest ih =>
    have ha := hv a (List.mem_cons_self _ _)
    have hnd₁ := List.nodup_cons.mp hnd
    have hcast : ((a.toNat : Nat) : Int) = a := Int.toNat_of_nonneg ha.1
    have key := prod_range_map_mulAt n a.toNat (f a.toNat)
      (fun (i : Nat) => if (i : Int) ∈ a :: rest then f i else 1)
      (fun (i : Nat) => if (i : Int) ∈ rest then f i else 1)
      (by omega)
      (by
        have h1 : ((a.toNat : Nat) : Int) ∈ a :: rest := by
          rw [hcast]
          exact List.mem_cons_self _ _
        have h2 : ¬ ((a.toNat : Nat) : Int) ∈ rest := by
          rw [hcast]
          exact hnd₁.1
        simp only [if_pos h1, if_neg h2, mul_one])
      (by
        intro i hi
        by_cases hmem : (i : Int) ∈ rest
        · simp only [List.mem_cons, if_pos (Or.inr hmem), if_pos hmem]
        · have hia : ¬ ((i : Nat) : Int) ∈ a :: rest := by
            simp only [List.mem_cons]
            push_neg
            refine ⟨?_, hmem⟩
            intro h
            apply hi
            omega
          simp only [if_neg hia, if_neg hmem])
    rw [key, List.map_cons, List.prod_cons, ih (fun x hx => hv x (List.mem_cons_of_mem _ hx)) hnd₁.2]

lemma setSplitBlocks_of_valid (shape : List Nat) (sa : List Int) :
    ∀ acc : List (List Sel), acc.length = shape.length →
      (∀ a ∈ sa, 0 ≤ a ∧ a < (shape.length : Int)) →
      setSplitBlocks shape sa acc = some ((List.range shape.length).map
        (fun (i : Nat) => if (i : Int) ∈ sa then splitCoords shape i else acc.getD i [Sel.full])) := by
  induction sa with
  | nil =>
    intro acc hlen _
    rw [setSplitBlocks]
    congr 1
    apply List.ext_getElem
    · simp [hlen]
    · intro i h1 h2
      simp only [List.getElem_map, List.getElem_range, List.not_mem_nil, if_false]
      rw [List.getD_eq_getElem?_getD, List.getElem?_eq_getElem (by omega), Option.getD_some]
  | cons a rest ih =>
    intro acc hlen hv
    have ha := hv a (List.mem_cons_self _ _)
    rw [setSplitBlocks, pyIdx_of_valid _ _ ha.1 ha.2]
    have hlen₂ : (acc.set a.toNat (splitCoords shape a.toNat)).length = shape.length := by
      simp [hlen]
    dsimp only
    rw [ih _ hlen₂ (fun x hx => hv x (List.mem_cons_of_mem _ hx))]
    congr 1
    apply List.map_congr_left
    intro i hi
    have hin : i < shape.length := List.mem_range.mp hi
    have hcast : ((a.toNat : Nat) : Int) = a := Int.toNat_of_nonneg ha.1
    by_cases hrest : (i : Int) ∈ rest
    · rw [if_pos hrest, if_pos (List.mem_cons_of_mem _ hrest)]
    · by_cases hia : i = a.toNat
      · subst hia
        rw [if_neg hrest, if_pos (by rw [hcast]; exact List.mem_cons_self _ _)]
        rw [List.getD_eq_getElem?_getD, List.getElem?_set_self (by omega), Option.getD_some]
      · rw [if_neg hrest, if_neg ?_]
        · rw [List.getD_eq_getElem?_getD, List.getD_eq_getElem?_getD,
            List.getElem?_set_ne (fun h => hia h.symm)]
        · simp only [List.mem_cons]
          push_neg
          refine ⟨?_, hrest⟩
          intro h
          apply hia
          omega

lemma dyn_base_blocks_of_valid (shape : List Nat) (sa : List Int)
    (hv : ∀ a ∈ sa, 0 ≤ a ∧ a < (shape.length : Int)) :
    dyn_base_blocks shape sa = some ((List.range shape.length).map
      (fun (i : Nat) => if (i : Int) ∈ sa then splitCoords shape i else [Sel.full])) := by
  rw [dyn_base_blocks, setSplitBlocks_of_valid shape sa _ (by simp) hv]
  congr 1
  apply List.map_congr_left
  intro i hi
  by_cases h : (i : Int) ∈ sa
  · rw [if_pos h, if_pos h]
  · rw [if_neg h, if_neg h, List.getD_eq_getElem?_getD, List.getElem?_replicate]
    by_cases hlt : i < shape.length <;> simp [hlt]

lemma cartProd_base_length (shape : List Nat) (sa : List Int)
    (hv : ∀ a ∈ sa, 0 ≤ a ∧ a < (shape.length : Int)) (hnd : sa.Nodup) :
    (cartProd ((List.range shape.length).map
        (fun (i : Nat) => if (i : Int) ∈ sa then splitCoords shape i else [Sel.full]))).length
      = (sa.map (fun a => shape.getD a.toNat 0)).prod := by
  rw [length_cartProd, List.map_map]
  have hfun : (List.length ∘ fun (i : Nat) =>
      if (i : Int) ∈ sa then splitCoords shape i else [Sel.full])
      = fun (i : Nat) => if (i : Int) ∈ sa then shape.getD i 0 else 1 := by
    funext i
    by_cases h : (i : Int) ∈ sa <;> simp [h, splitCoords]
  rw [hfun, prod_ite_mem _ _ _ hv hnd]

/-! Lemmas about the dispatch-phase bookkeeping and the termination loop. -/

lemma mem_assignedKeys (n : Nat) (phase1 : List Nat) (hlen : phase1.length = n)
    (w i : Nat) :
    i ∈ assignedKeys n phase1 w ↔ ∃ h : i < n, phase1[i] = w := by
  rw [assignedKeys, List.mem_filterMap]
  constructor
  · rintro ⟨⟨j, r⟩, hmem, hq⟩
    by_cases hr : r = w
    · rw [if_pos hr] at hq
      injection hq with hq
      subst hq
      subst hr
      obtain ⟨k, hk, hkk⟩ := List.mem_iff_getElem.mp hmem
      have hkn : k < n := by
        simp [List.length_zip, hlen] at hk
        omega
      rw [List.getElem_zip, Prod.mk.injEq] at hkk
      obtain ⟨h1, h2⟩ := hkk
      rw [List.getElem_range] at h1
      subst h1
      exact ⟨hkn, h2⟩
    · rw [if_neg hr] at hq
      cases hq
  · rintro ⟨h, hw⟩
    refine ⟨(i, w), ?_, by simp⟩
    apply List.mem_iff_getElem.mpr
    refine ⟨i, by simp [List.length_zip, hlen]; omega, ?_⟩
    rw [List.getElem_zip, Prod.mk.injEq]
    exact ⟨by simp, hw⟩

lemma nodup_assignedKeys (n : Nat) (phase1 : List Nat) (hlen : phase1.length = n)
    (w : Nat) : (assignedKeys n phase1 w).Nodup := by
  rw [assignedKeys]
  apply List.Nodup.filterMap
  · intro q₁ q₂ c hc₁ hc₂
    by_cases h₁ : q₁.2 = w
    · by_cases h₂ : q₂.2 = w
      · rw [if_pos h₁] at hc₁
        rw [if_pos h₂] at hc₂
        simp only [Option.mem_def, Option.some.injEq] at hc₁ hc₂
        obtain ⟨a₁, b₁⟩ := q₁
        obtain ⟨a₂, b₂⟩ := q₂
        simp only at h₁ h₂ hc₁ hc₂
        rw [Prod.mk.injEq]
        constructor
        · rw [hc₁, hc₂]
        · rw [h₁, h₂]
      · rw [if_neg h₂] at hc₂
        cases hc₂
    · rw [if_neg h₁] at hc₁
      cases hc₁
  · apply List.Nodup.of_map Prod.fst
    rw [List.map_fst_zip _ _ (by simp [hlen])]
    exact List.nodup_range n

lemma assignedKeys_disjoint (n : Nat) (phase1 : List Nat) (hlen : phase1.length = n)
    (w₁ w₂ : Nat) (hne : w₁ ≠ w₂) (i : Nat) (h₁ : i ∈ assignedKeys n phase1 w₁) :
    i ∉ assignedKeys n phase1 w₂ := by
  intro h₂
  obtain ⟨hlt₁, he₁⟩ := (mem_assignedKeys n phase1 hlen w₁ i).mp h₁
  obtain ⟨hlt₂, he₂⟩ := (mem_assignedKeys n phase1 hlen w₂ i).mp h₂
  rw [he₁] at he₂
  exact hne he₂

lemma drain_runs_to_done (assigned : Nat → List Nat) :
    ∀ (reqs : List Nat) (status : List Bool) (acc : List Nat),
      reqs.Nodup →
      (∀ r : Nat, r ∈ reqs ↔ ∃ h : r < status.length, status[r] = false) →
      drain true assigned status acc reqs = .done (acc ++ reqs.flatMap assigned) [] := by
  intro reqs
  induction reqs with
  | nil =>
    intro status acc _ hiff
    rw [drain]
    have hall : status.all (fun b => b) = true := by
      rw [List.all_eq_true]
      intro b hb
      obtain ⟨i, hi, he⟩ := List.mem_iff_getElem.mp hb
      by_contra hfalse
      have hbf : status[i] = false := by
        rw [he]
        exact Bool.not_eq_true b ▸ hfalse
      exact absurd ((hiff i).mpr ⟨hi, hbf⟩) (List.not_mem_nil i)
    rw [if_pos hall]
    simp
  | cons r rs ih =>
    intro status acc hnd hiff
    obtain ⟨hr, hrf⟩ := (hiff r).mp (List.mem_cons_self _ _)
    rw [drain]
    have hall : status.all (fun b => b) = false := by
      apply List.all_eq_false.mpr
      exact ⟨status[r], List.getElem_mem hr, by rw [hrf]; simp⟩
    rw [if_neg (by simp [hall])]
    dsimp only
    rw [if_pos (by simpa using hr)]
    have hnd₁ := List.nodup_cons.mp hnd
    show drain true assigned (status.set r true) (acc ++ assigned r) rs = _
    rw [ih (status.set r true) (acc ++ assigned r) hnd₁.2 ?_]
    · rw [List.flatMap_cons, List.append_assoc]
    · intro i
      constructor
      · intro hi
        have hir : i ≠ r := fun h => hnd₁.1 (h ▸ hi)
        obtain ⟨hlt, hfalse⟩ := (hiff i).mp (List.mem_cons_of_mem _ hi)
        refine ⟨by simpa using hlt, ?_⟩
        rw [List.getElem_set_ne (fun h => hir h.symm)]
        exact hfalse
      · rintro ⟨hlt, hfalse⟩
        have hlen : i < status.length := by simpa using hlt
        by_cases hir : i = r
        · subst hir
          rw [List.getElem_set_self] at hfalse
          cases hfalse
        · rw [List.getElem_set_ne (fun h => hir h.symm)] at hfalse
          have hmem := (hiff i).mpr ⟨hlen, hfalse⟩
          rcases List.mem_cons.mp hmem with h | h
          · exact absurd h hir
          · exact h

lemma flatMap_assignedKeys_nodup (n : Nat) (phase1 ph₂ : List Nat)
    (hlen : phase1.length = n) (hnd₂ : ph₂.Nodup) :
    (ph₂.flatMap (assignedKeys n phase1)).Nodup := by
  apply List.nodup_flatMap.mpr
  constructor
  · intro w _
    exact nodup_assignedKeys n phase1 hlen w
  · refine hnd₂.imp ?_
    intro w₁ w₂ hne
    intro i hi₁ hi₂
    exact assignedKeys_disjoint n phase1 hlen w₁ w₂ hne i hi₁ hi₂

lemma mem_flatMap_assignedKeys (n : Nat) (phase1 ph₂ : List Nat)
    (hlen : phase1.length = n) (hsub : ∀ r ∈ phase1, r ∈ ph₂) (i : Nat) :
    i ∈ ph₂.flatMap (assignedKeys n phase1) ↔ i < n := by
  rw [List.mem_flatMap]
  constructor
  · rintro ⟨w, _, hw⟩
    exact (mem_assignedKeys n phase1 hlen w i).mp hw |>.fst
  · intro hi
    have hilt : i < phase1.length := by omega
    have hmem : phase1[i] ∈ phase1 := List.getElem_mem hilt
    refine ⟨phase1[i], hsub _ hmem, ?_⟩
    exact (mem_assignedKeys n phase1 hlen _ i).mpr ⟨hi, rfl⟩

lemma flatMap_assignedKeys_length (n : Nat) (phase1 ph₂ : List Nat)
    (hlen : phase1.length = n) (hnd₂ : ph₂.Nodup) (hsub : ∀ r ∈ phase1, r ∈ ph₂) :
    (ph₂.flatMap (assignedKeys n phase1)).length = n := by
  have hnd := flatMap_assignedKeys_nodup n phase1 ph₂ hlen hnd₂
  have hset : (ph₂.flatMap (assignedKeys n phase1)).toFinset = Finset.range n := by
    apply Finset.ext
    intro i
    rw [List.mem_toFinset, Finset.mem_range]
    exact mem_flatMap_assignedKeys n phase1 ph₂ hlen hsub i
  calc (ph₂.flatMap (assignedKeys n phase1)).length
      = (ph₂.flatMap (assignedKeys n phase1)).toFinset.card :=
        (List.toFinset_card_of_nodup hnd).symm
    _ = (Finset.range n).card := by rw [hset]
    _ = n := Finset.card_range n

/-! Success path of `run_static`, packaged for reuse across claims. -/

/-- Effective process count after the reduction on lines 102-103. -/
def effSize (ax : List Nat) (wsize : Nat) : Nat :=
  if ax.prod < wsize then ax.prod else wsize

/-- The selection tuple `my_block` computed by `run_static` (lines 115-122)
for a given rank, expressed in terms of the already computed `axes_shapes`. -/
def static_my_block (p : POA) (ax : List Nat) (rank wsize : Nat) : List Sel :=
  let bounds := static_block_bounds (ax.getD (argmaxLast ax) 0) (effSize ax wsize) rank
  (List.range p.main_data_shape.length).map
    (fun i => if i = argmaxLast ax then Sel.slice bounds.1 bounds.2 else Sel.full)

/-- The parameter dict passed to the task function (lines 126-127). -/
def static_params (p : POA) (ax : List Nat) (rank wsize : Nat) : List (String × Val) :=
  assocSet p.task_function_params p.main_data_param_name
    (Val.dataSlice (static_my_block p ax rank wsize))

/-- The warning messages emitted by `run_static` (line 105). -/
def static_warns (p : POA) (ax : List Nat) (rank wsize : Nat) : List String :=
  if ax.prod < wsize ∧ rank = p.root then [idleWarnMsg] else []

lemma run_static_eq_ok (tf : List (String × Val) → Val) (p : POA) (rank wsize : Nat)
    (ax : List Nat)
    (hax : npFancyIndex p.main_data_shape p.split_axes = some ax)
    (hne : ax ≠ [])
    (hS : ¬ ax.getD (argmaxLast ax) 0 < effSize ax wsize)
    (hsz : effSize ax wsize ≠ 0)
    (hlt : argmaxLast ax < p.main_data_shape.length) :
    run_static tf p rank wsize = .ok
      { result := tf (static_params p ax rank wsize)
        stored_params := static_params p ax rank wsize
        invocations := [static_params p ax rank wsize]
        warnings := static_warns p ax rank wsize } := by
  have hemp : ax.isEmpty = false := by
    cases ax
    · exact absurd rfl hne
    · rfl
  rw [run_static, hax]
  simp only [hemp, Bool.false_eq_true, if_false, effSize] at hS hsz ⊢
  rw [if_neg hS, if_neg hsz, if_pos hlt]
  simp only [static_params, static_my_block, static_warns, effSize]

/-! The concrete task callable and request builder used in witnesses and
counterexamples. -/

/-- A concrete opaque task callable (its value is irrelevant to the
scheduler). -/
def tfc : List (String × Val) → Val := fun _ => Val.nat 0

/-- Builder for concrete scheduling requests with the default
`root = 0`, `collect_output = True`, slice parameter name "data". -/
def mkReq (params : List (String × Val)) (shape : List Nat) (sa : List Int)
    (sched : String) : POA where
  task_function_params := params
  main_data_shape := shape
  split_axes := sa
  main_data_param_name := "data"
  schedule := sched
  collect_output := true
  root := 0

/-- C1: for `S ≥ P ≥ 1` the static schedule gives rank `r` the half-open
range `[r*(S/P), (r+1)*(S/P))` along the split axis, except the last rank
`P-1`, which gets `[(P-1)*(S/P), S)`; these ranges cover `[0, S)` exactly,
with no overlaps (every point lies in the range of exactly one rank) and no
gaps, and no range reaches beyond `S`. -/
theorem static_blocks_partition (S P : Nat) (hP : 1 ≤ P) (hSP : P ≤ S) :
    (∀ r, r + 1 < P →
        static_block_bounds S P r = (r * (S / P), (r + 1) * (S / P)))
    ∧ static_block_bounds S P (P - 1) = ((P - 1) * (S / P), S)
    ∧ (∀ k, k < S → ∃ r,
        (r < P ∧ (static_block_bounds S P r).1 ≤ k ∧ k < (static_block_bounds S P r).2)
        ∧ ∀ r₁, r₁ < P → (static_block_bounds S P r₁).1 ≤ k →
            k < (static_block_bounds S P r₁).2 → r₁ = r)
    ∧ (∀ r k, r < P → (static_block_bounds S P r).1 ≤ k →
        k < (static_block_bounds S P r).2 → k < S) := by
  have hP0 : 0 < P := hP
  have hb1 : 1 ≤ S / P := (Nat.one_le_div_iff hP0).mpr hSP
  have hPbS : P * (S / P) ≤ S := by
    rw [mul_comm]
    exact Nat.div_mul_le_self S P
  have hpair : ∀ r, static_block_bounds S P r
      = (r * (S / P), if r = P - 1 ∧ r * (S / P) + S / P ≠ S then S else r * (S / P) + S / P) :=
    fun r => rfl
  have hmid : ∀ r, r + 1 < P →
      static_block_bounds S P r = (r * (S / P), (r + 1) * (S / P)) := by
    intro r hr
    rw [hpair r, if_neg]
    · rw [Nat.succ_mul]
    · rintro ⟨h1, _⟩
      omega
  have hlast : static_block_bounds S P (P - 1) = ((P - 1) * (S / P), S) := by
    rw [hpair (P - 1)]
    by_cases hstop : (P - 1) * (S / P) + S / P = S
    · rw [if_neg (by tauto), hstop]
    · rw [if_pos ⟨rfl, hstop⟩]
  have hlast_le : (P - 1) * (S / P) + S / P ≤ S := by
    have : (P - 1) * (S / P) + S / P = P * (S / P) := by
      have hP1 : P - 1 + 1 = P := by omega
      calc (P - 1) * (S / P) + S / P = (P - 1 + 1) * (S / P) := by ring
        _ = P * (S / P) := by rw [hP1]
    omega
  refine ⟨hmid, hlast, ?_, ?_⟩
  · intro k hk
    by_cases hcase : k < (P - 1) * (S / P)
    · refine ⟨k / (S / P), ⟨?_, ?_, ?_⟩, ?_⟩
      · have : k / (S / P) < P - 1 := (Nat.div_lt_iff_lt_mul (by omega)).mpr hcase
        omega
      · have hq : k / (S / P) < P - 1 := (Nat.div_lt_iff_lt_mul (by omega)).mpr hcase
        rw [hpair]
        exact Nat.div_mul_le_self k (S / P)
      · have hq : k / (S / P) < P - 1 := (Nat.div_lt_iff_lt_mul (by omega)).mpr hcase
        rw [hmid _ (by omega)]
        have h1 := Nat.div_add_mod k (S / P)
        have h2 := Nat.mod_lt k (show 0 < S / P by omega)
        calc k = S / P * (k / (S / P)) + k % (S / P) := h1.symm
          _ < S / P * (k / (S / P)) + S / P := by omega
          _ = (k / (S / P) + 1) * (S / P) := by ring
      · intro r₁ hr₁ hle hlt
        by_cases hr₁P : r₁ + 1 < P
        · rw [hmid _ hr₁P] at hlt
          rw [hpair] at hle
          have h1 : r₁ ≤ k / (S / P) := (Nat.le_div_iff_mul_le (by omega)).mpr hle
          have h2 : k / (S / P) < r₁ + 1 := (Nat.div_lt_iff_lt_mul (by omega)).mpr hlt
          omega
        · have hr₁last : r₁ = P - 1 := by omega
          subst hr₁last
          rw [hlast] at hle
          have : P - 1 ≤ k / (S / P) := (Nat.le_div_iff_mul_le (by omega)).mpr hle
          have : k / (S / P) < P - 1 := (Nat.div_lt_iff_lt_mul (by omega)).mpr hcase
          omega
    · refine ⟨P - 1, ⟨by omega, ?_, ?_⟩, ?_⟩
      · rw [hlast]
        omega
      · rw [hlast]
        exact hk
      · intro r₁ hr₁ hle hlt
        by_cases hr₁P : r₁ + 1 < P
        · rw [hmid _ hr₁P] at hlt
          have hstep : (r₁ + 1) * (S / P) ≤ (P - 1) * (S / P) :=
            Nat.mul_le_mul_right _ (by omega)
          omega
        · omega
  · intro r k hr hle hlt
    by_cases hrP : r + 1 < P
    · rw [hmid _ hrP] at hlt
      have hstep : (r + 1) * (S / P) ≤ P * (S / P) := Nat.mul_le_mul_right _ (by omega)
      omega
    · have : r = P - 1 := by omega
      subst this
      rw [hlast] at hlt
      exact hlt

/-- Witness for C1 at `S = 9`, `P = 4` (spec Scenario B: blocks
`[0,2) [2,4) [4,6) [6,9)`). -/
theorem static_blocks_partition_witness :
    (1 ≤ 4 ∧ 4 ≤ 9)
    ∧ ((∀ r, r + 1 < 4 →
        static_block_bounds 9 4 r = (r * (9 / 4), (r + 1) * (9 / 4)))
    ∧ static_block_bounds 9 4 (4 - 1) = ((4 - 1) * (9 / 4), 9)
    ∧ (∀ k, k < 9 → ∃ r,
        (r < 4 ∧ (static_block_bounds 9 4 r).1 ≤ k ∧ k < (static_block_bounds 9 4 r).2)
        ∧ ∀ r₁, r₁ < 4 → (static_block_bounds 9 4 r₁).1 ≤ k →
            k < (static_block_bounds 9 4 r₁).2 → r₁ = r)
    ∧ (∀ r k, r < 4 → (static_block_bounds 9 4 r).1 ≤ k →
        k < (static_block_bounds 9 4 r).2 → k < 9)) :=
  ⟨⟨by decide, by decide⟩, static_blocks_partition 9 4 (by decide) (by decide)⟩

/-- C4 (code bug): for shape `(4,5)` and `split_axes = [1]` with 2 ranks,
the largest (indeed only) split axis is dataset axis 1, of extent 5, yet
rank 0's computed selection slices dataset axis 0 with the bounds
`[0, 5/2) = [0, 2)` derived from axis 1's extent, and takes axis 1 - the
split axis itself - in full: line 121 writes the slice at position
`axes_sort_index[0]` (the position of the split axis inside `axes_shapes`)
instead of position `split_axes[axes_sort_index[0]]` of the dataset,
contradicting the docstring "The data is divided into sub-blocks along the
largest split_axis" (line 91) and the claim. -/
theorem static_split_axis_bug :
    (run_static tfc (mkReq [] [4, 5] [1] "STATIC") 0 2).map (fun o => o.invocations)
      = .ok [[("data", Val.dataSlice [Sel.slice 0 2, Sel.full])]]
    ∧ (mkReq [] [4, 5] [1] "STATIC").split_axes = [1]
    ∧ npFancyIndex [4, 5] [1] = some [5] := by
  refine ⟨?_, ?_, ?_⟩ <;> rfl

/-- C5 counterexample: the claim's example (shape `(3,)`, `split_axes [0]`,
4 processes) does NOT raise: `size` is first reduced to
`total_num_subblocks = 3` (line 103), so the check on line 109 compares
`S = 3` with the effective count 3 and passes; rank 0 happily computes the
block `[0, 1)`. -/
theorem static_small_axis_example_no_error :
    (run_static tfc (mkReq [] [3] [0] "STATIC") 0 4).isOk = true
    ∧ effSize [3] 4 = 3 := by
  refine ⟨?_, ?_⟩ <;> rfl

/-- C5 (amended): the configuration error is raised exactly against the
EFFECTIVE process count `min(P, total_subblocks)`: whenever the largest
split-axis extent is smaller than `effSize`, `run_static` raises
`NotImplementedError` on every rank, before any task invocation (the error
branch on lines 109-111 precedes the invocation on line 128), and this is
rank-independent.  The claim's example must be replaced by one where
`S < effSize`, e.g. shape `(2,3)`, `split_axes [0,1]`, 4 processes. -/
theorem static_error_when_axis_smaller_than_effective
    (tf : List (String × Val) → Val) (p : POA) (rank wsize : Nat) (ax : List Nat)
    (hax : npFancyIndex p.main_data_shape p.split_axes = some ax)
    (hne : ax ≠ [])
    (hS : ax.getD (argmaxLast ax) 0 < effSize ax wsize) :
    run_static tf p rank wsize = .error "NotImplementedError" := by
  have hemp : ax.isEmpty = false := by
    cases ax
    · exact absurd rfl hne
    · rfl
  rw [run_static, hax]
  simp only [hemp, Bool.false_eq_true, if_false, effSize] at hS ⊢
  rw [if_pos hS]

/-- Witness for the amended C5 at shape `(2,3)`, `split_axes [0,1]`,
4 ranks: `total_subblocks = 6 ≥ 4`, so the effective count stays 4, and the
largest extent `S = 3 < 4` raises on every rank (here rank 0). -/
theorem static_error_when_axis_smaller_than_effective_witness :
    (npFancyIndex [2, 3] [0, 1] = some [2, 3]
      ∧ ([2, 3] : List Nat) ≠ []
      ∧ ([2, 3] : List Nat).getD (argmaxLast [2, 3]) 0 < effSize [2, 3] 4)
    ∧ run_static tfc (mkReq [] [2, 3] [0, 1] "STATIC") 0 4 = .error "NotImplementedError" :=
  ⟨⟨by decide, by decide, by decide⟩,
    static_error_when_axis_smaller_than_effective tfc (mkReq [] [2, 3] [0, 1] "STATIC") 0 4
      [2, 3] (by decide) (by decide) (by decide)⟩

lemma getD_mem_of_lt (l : List Nat) (i : Nat) (h : i < l.length) : l.getD i 0 ∈ l := by
  rw [List.getD_eq_getElem?_getD, List.getElem?_eq_getElem h, Option.getD_some]
  exact List.getElem_mem h

lemma map_extents_pos (shape : List Nat) (sa : List Int)
    (hv : ∀ a ∈ sa, 0 ≤ a ∧ a < (shape.length : Int))
    (hpos : ∀ s ∈ shape, 0 < s) :
    ∀ x ∈ sa.map (fun a => shape.getD a.toNat 0), 0 < x := by
  intro x hx
  obtain ⟨a, ha, rfl⟩ := List.mem_map.mp hx
  have hva := hv a ha
  exact hpos _ (getD_mem_of_lt shape a.toNat (by omega))

/-- C6: with a single process (`size() == 1 < 2`), a DYNAMIC request does
not raise and does not deadlock: `run` enters `run_dynamic`, which emits
the fallback warning (line 152) and returns exactly what `run_static`
returns for the same request (line 153).  The hypotheses state request
validity: in-range distinct split axes, at least one split axis, and
positive extents. -/
theorem dynamic_single_process_fallback (tf : List (String × Val) → Val)
    (p : POA) (rank : Nat)
    (hsch : p.schedule = "DYNAMIC")
    (hv : ∀ a ∈ p.split_axes, 0 ≤ a ∧ a < (p.main_data_shape.length : Int))
    (hnd : p.split_axes.Nodup)
    (hnemp : p.split_axes ≠ [])
    (hpos : ∀ s ∈ p.main_data_shape, 0 < s) :
    ∃ out, run_static tf p rank 1 = .ok out
      ∧ run_single tf p rank 1 =
          .ok (.ret { out with warnings := dynFallbackMsg :: out.warnings }) := by
  set ax := p.split_axes.map (fun a => p.main_data_shape.getD a.toNat 0) with hax_def
  have hax : npFancyIndex p.main_data_shape p.split_axes = some ax :=
    npFancyIndex_of_valid _ _ hv
  have hne : ax ≠ [] := by
    rw [hax_def]
    intro h
    exact hnemp (List.map_eq_nil_iff.mp h)
  have haxpos : ∀ x ∈ ax, 0 < x := map_extents_pos _ _ hv hpos
  have hprod : 0 < ax.prod := List.prod_pos haxpos
  have heff : effSize ax 1 = 1 := by
    rw [effSize, if_neg (by omega)]
  have hSmem : ax.getD (argmaxLast ax) 0 ∈ ax := argmaxLast_getD_mem ax hne
  have hS : ¬ ax.getD (argmaxLast ax) 0 < effSize ax 1 := by
    rw [heff]
    have := haxpos _ hSmem
    omega
  have hlt : argmaxLast ax < p.main_data_shape.length := by
    have h1 : argmaxLast ax < ax.length := argmaxLast_lt_length ax hne
    have h2 : ax.length = p.split_axes.length := by
      rw [hax_def, List.length_map]
    have h3 : p.split_axes.length ≤ p.main_data_shape.length :=
      valid_axes_length_le _ _ hv hnd
    omega
  have hok := run_static_eq_ok tf p rank 1 ax hax hne hS (by omega) hlt
  refine ⟨_, hok, ?_⟩
  rw [run_single, if_pos hsch, if_pos (by omega), hok]

/-- Witness for C6: a DYNAMIC request over shape `(8,)`, `split_axes [0]`,
run in a communicator of size 1. -/
theorem dynamic_single_process_fallback_witness :
    ((mkReq [] [8] [0] "DYNAMIC").schedule = "DYNAMIC"
      ∧ (∀ a ∈ (mkReq [] [8] [0] "DYNAMIC").split_axes,
          0 ≤ a ∧ a < ((mkReq [] [8] [0] "DYNAMIC").main_data_shape.length : Int))
      ∧ (mkReq [] [8] [0] "DYNAMIC").split_axes.Nodup
      ∧ (mkReq [] [8] [0] "DYNAMIC").split_axes ≠ []
      ∧ (∀ s ∈ (mkReq [] [8] [0] "DYNAMIC").main_data_shape, 0 < s))
    ∧ ∃ out, run_static tfc (mkReq [] [8] [0] "DYNAMIC") 0 1 = .ok out
      ∧ run_single tfc (mkReq [] [8] [0] "DYNAMIC") 0 1 =
          .ok (.ret { out with warnings := dynFallbackMsg :: out.warnings }) :=
  ⟨⟨by decide, by decide, by decide, by decide, by decide⟩,
    dynamic_single_process_fallback tfc (mkReq [] [8] [0] "DYNAMIC") 0
      (by decide) (by decide) (by decide) (by decide) (by decide)⟩

/-- C8 counterexample: the claim's frame condition is false.  After
`run_static` on the request with `task_params = {x: 7}`, slice parameter
name "data", the STORED mapping contains the extra entry
`data -> main_data[0:2]`: line 126 binds `task_params` to
`self.task_function_params` by reference (no copy), so the insertion on
line 127 mutates the stored mapping, which afterwards no longer excludes
the slice parameter. -/
theorem task_params_mutation_counterexample :
    (run_static tfc (mkReq [("x", Val.nat 7)] [2] [0] "STATIC") 0 1).map
        (fun o => o.stored_params)
      = .ok [("x", Val.nat 7), ("data", Val.dataSlice [Sel.slice 0 2])]
    ∧ (run_static tfc (mkReq [("x", Val.nat 7)] [2] [0] "STATIC") 0 1).map
        (fun o => assocLookup o.stored_params "data")
      = .ok (some (Val.dataSlice [Sel.slice 0 2]))
    ∧ (mkReq [("x", Val.nat 7)] [2] [0] "STATIC").task_function_params
      = [("x", Val.nat 7)] := by
  refine ⟨?_, ?_, ?_⟩ <;> rfl

lemma dynWorker_spec (tf : List (String × Val) → Val) (name : String) :
    ∀ (msgs : List (Nat × List Sel)) (params : List (String × Val)),
      (dynWorker tf params name msgs).2.2.length = msgs.length
      ∧ (∀ j, j < msgs.length →
          assocLookup ((dynWorker tf params name msgs).2.2.getD j []) name
            = some (Val.dataSlice (msgs.getD j (0, [])).2)
          ∧ ∀ k, k ≠ name →
              assocLookup ((dynWorker tf params name msgs).2.2.getD j []) k
                = assocLookup params k)
      ∧ (dynWorker tf params name msgs).1.map Prod.fst = msgs.map Prod.fst
      ∧ (dynWorker tf params name msgs).1.map Prod.snd
          = (dynWorker tf params name msgs).2.2.map tf
      ∧ (dynWorker tf params name msgs).2.1
          = (dynWorker tf params name msgs).2.2.getLastD params := by
  intro msgs
  induction msgs with
  | nil =>
    intro params
    exact ⟨rfl, fun j hj => absurd hj (by simp), rfl, rfl, rfl⟩
  | cons m rest ih =>
    intro params
    obtain ⟨idx, sel⟩ := m
    obtain ⟨ih1, ih2, ih3, ih4, ih5⟩ := ih (assocSet params name (Val.dataSlice sel))
    simp only [dynWorker]
    refine ⟨?_, ?_, ?_, ?_, ?_⟩
    · simp only [List.length_cons, ih1]
    · intro j hj
      cases j with
      | zero =>
        rw [List.getD_cons_zero]
        exact ⟨assocLookup_assocSet_self _ _ _,
          fun k hk => assocLookup_assocSet_ne _ _ _ _ hk⟩
      | succ j₁ =>
        have hj₁ : j₁ < rest.length := by
          simpa using hj
        obtain ⟨h1, h2⟩ := ih2 j₁ hj₁
        rw [List.getD_cons_succ, List.getD_cons_succ]
        refine ⟨h1, ?_⟩
        intro k hk
        rw [h2 k hk]
        exact assocLookup_assocSet_ne _ _ _ _ hk
    · simp only [List.map_cons, ih3]
    · simp only [List.map_cons, ih4]
    · rw [List.getLastD_cons]
      exact ih5

/-- C8 (amended): under both schedules the task function is invoked
exactly once per assigned slice, with a parameter mapping equal to
`task_params` plus the single entry `slice_param_name ->
dataset[selection]` (the slice name looks up to the injected slice, every
other key looks up exactly as in the original mapping) - but the run does
NOT leave the stored `task_params` unchanged: lines 126-127 (static) and
208-209 (dynamic worker) bind the dict by reference, so afterwards the
stored mapping equals the mapping of the last invocation made.  Static
conjunct: on every successful `run_static`, one invocation with the
rank's block, and the stored mapping is that invocation's mapping.
Dynamic-worker conjunct, for any list of received assignments: one
invocation per assignment, in order; each invocation's mapping binds the
slice name to that assignment's selection and agrees with the original
mapping on every other key; the local result dict is keyed by the
received block indices in order, with values the task outputs of the
successive invocation mappings; and the stored mapping afterwards is the
last invocation's mapping (the original mapping if no assignment was
received). -/
theorem task_invocation_and_mutation (tf : List (String × Val) → Val)
    (p : POA) (rank wsize : Nat) (msgs : List (Nat × List Sel)) :
    (∀ ax : List Nat, npFancyIndex p.main_data_shape p.split_axes = some ax →
      ax ≠ [] → ¬ ax.getD (argmaxLast ax) 0 < effSize ax wsize →
      effSize ax wsize ≠ 0 → argmaxLast ax < p.main_data_shape.length →
      ∃ out, run_static tf p rank wsize = .ok out
        ∧ out.invocations = [out.stored_params]
        ∧ assocLookup out.stored_params p.main_data_param_name
            = some (Val.dataSlice (static_my_block p ax rank wsize))
        ∧ (∀ k, k ≠ p.main_data_param_name →
            assocLookup out.stored_params k
              = assocLookup p.task_function_params k))
    ∧ ((dynWorker tf p.task_function_params p.main_data_param_name msgs).2.2.length
          = msgs.length
        ∧ (∀ j, j < msgs.length →
            assocLookup
                ((dynWorker tf p.task_function_params p.main_data_param_name
                  msgs).2.2.getD j [])
                p.main_data_param_name
              = some (Val.dataSlice (msgs.getD j (0, [])).2)
            ∧ ∀ k, k ≠ p.main_data_param_name →
                assocLookup
                    ((dynWorker tf p.task_function_params p.main_data_param_name
                      msgs).2.2.getD j []) k
                  = assocLookup p.task_function_params k)
        ∧ (dynWorker tf p.task_function_params p.main_data_param_name msgs).1.map
            Prod.fst = msgs.map Prod.fst
        ∧ (dynWorker tf p.task_function_params p.main_data_param_name msgs).1.map
            Prod.snd
          = (dynWorker tf p.task_function_params p.main_data_param_name
              msgs).2.2.map tf
        ∧ (dynWorker tf p.task_function_params p.main_data_param_name msgs).2.1
          = (dynWorker tf p.task_function_params p.main_data_param_name
              msgs).2.2.getLastD p.task_function_params) := by
  constructor
  · intro ax hax hne hS hsz hlt
    refine ⟨_, run_static_eq_ok tf p rank wsize ax hax hne hS hsz hlt, rfl, ?_, ?_⟩
    · rw [static_params]
      exact assocLookup_assocSet_self _ _ _
    · intro k hk
      rw [static_params]
      exact assocLookup_assocSet_ne _ _ _ _ hk
  · exact dynWorker_spec tf p.main_data_param_name msgs p.task_function_params

/-- Witness for the amended C8: `task_params = {x: 7}`, shape `(2,)`,
`split_axes [0]`, one rank for the static conjunct; the dynamic-worker
conjunct is exercised with the two received assignments
`(0, (0,))` and `(1, (1,))`. -/
theorem task_invocation_and_mutation_witness :
    (npFancyIndex [2] [0] = some [2]
      ∧ ([2] : List Nat) ≠ []
      ∧ ¬ ([2] : List Nat).getD (argmaxLast [2]) 0 < effSize [2] 1
      ∧ effSize [2] 1 ≠ 0
      ∧ argmaxLast [2] < ([2] : List Nat).length)
    ∧ (∃ out, run_static tfc (mkReq [("x", Val.nat 7)] [2] [0] "STATIC") 0 1 = .ok out
        ∧ out.invocations = [out.stored_params]
        ∧ assocLookup out.stored_params
            (mkReq [("x", Val.nat 7)] [2] [0] "STATIC").main_data_param_name
          = some (Val.dataSlice
              (static_my_block (mkReq [("x", Val.nat 7)] [2] [0] "STATIC") [2] 0 1))
        ∧ (∀ k, k ≠ (mkReq [("x", Val.nat 7)] [2] [0] "STATIC").main_data_param_name →
            assocLookup out.stored_params k
              = assocLookup
                  (mkReq [("x", Val.nat 7)] [2] [0] "STATIC").task_function_params k))
    ∧ ((dynWorker tfc (mkReq [("x", Val.nat 7)] [2] [0] "STATIC").task_function_params
          (mkReq [("x", Val.nat 7)] [2] [0] "STATIC").main_data_param_name
          [(0, [Sel.coord 0]), (1, [Sel.coord 1])]).2.2.length
          = ([(0, [Sel.coord 0]), (1, [Sel.coord 1])] : List (Nat × List Sel)).length
        ∧ (∀ j, j < ([(0, [Sel.coord 0]), (1, [Sel.coord 1])] : List (Nat × List Sel)).length →
            assocLookup
                ((dynWorker tfc
                  (mkReq [("x", Val.nat 7)] [2] [0] "STATIC").task_function_params
                  (mkReq [("x", Val.nat 7)] [2] [0] "STATIC").main_data_param_name
                  [(0, [Sel.coord 0]), (1, [Sel.coord 1])]).2.2.getD j [])
                (mkReq [("x", Val.nat 7)] [2] [0] "STATIC").main_data_param_name
              = some (Val.dataSlice
                  (([(0, [Sel.coord 0]), (1, [Sel.coord 1])] : List (Nat × List Sel)).getD
                    j (0, [])).2)
            ∧ ∀ k, k ≠ (mkReq [("x", Val.nat 7)] [2] [0] "STATIC").main_data_param_name →
                assocLookup
                    ((dynWorker tfc
                      (mkReq [("x", Val.nat 7)] [2] [0] "STATIC").task_function_params
                      (mkReq [("x", Val.nat 7)] [2] [0] "STATIC").main_data_param_name
                      [(0, [Sel.coord 0]), (1, [Sel.coord 1])]).2.2.getD j []) k
                  = assocLookup
                      (mkReq [("x", Val.nat 7)] [2] [0] "STATIC").task_function_params k)
        ∧ (dynWorker tfc (mkReq [("x", Val.nat 7)] [2] [0] "STATIC").task_function_params
            (mkReq [("x", Val.nat 7)] [2] [0] "STATIC").main_data_param_name
            [(0, [Sel.coord 0]), (1, [Sel.coord 1])]).1.map Prod.fst
          = ([(0, [Sel.coord 0]), (1, [Sel.coord 1])] : List (Nat × List Sel)).map Prod.fst
        ∧ (dynWorker tfc (mkReq [("x", Val.nat 7)] [2] [0] "STATIC").task_function_params
            (mkReq [("x", Val.nat 7)] [2] [0] "STATIC").main_data_param_name
            [(0, [Sel.coord 0]), (1, [Sel.coord 1])]).1.map Prod.snd
          = (dynWorker tfc (mkReq [("x", Val.nat 7)] [2] [0] "STATIC").task_function_params
              (mkReq [("x", Val.nat 7)] [2] [0] "STATIC").main_data_param_name
              [(0, [Sel.coord 0]), (1, [Sel.coord 1])]).2.2.map tfc
        ∧ (dynWorker tfc (mkReq [("x", Val.nat 7)] [2] [0] "STATIC").task_function_params
            (mkReq [("x", Val.nat 7)] [2] [0] "STATIC").main_data_param_name
            [(0, [Sel.coord 0]), (1, [Sel.coord 1])]).2.1
          = (dynWorker tfc (mkReq [("x", Val.nat 7)] [2] [0] "STATIC").task_function_params
              (mkReq [("x", Val.nat 7)] [2] [0] "STATIC").main_data_param_name
              [(0, [Sel.coord 0]), (1, [Sel.coord 1])]).2.2.getLastD
              (mkReq [("x", Val.nat 7)] [2] [0] "STATIC").task_function_params) :=
  ⟨⟨by decide, by decide, by decide, by decide, by decide⟩,
    (task_invocation_and_mutation tfc (mkReq [("x", Val.nat 7)] [2] [0] "STATIC") 0 1
        [(0, [Sel.coord 0]), (1, [Sel.coord 1])]).1 [2]
      (by decide) (by decide) (by decide) (by decide) (by decide),
    (task_invocation_and_mutation tfc (mkReq [("x", Val.nat 7)] [2] [0] "STATIC") 0 1
        [(0, [Sel.coord 0]), (1, [Sel.coord 1])]).2⟩

/-- C9 counterexample: a negative split-axis index in `[-rank, 0)` does NOT
raise: numpy wraps it, so `split_axes = [-1]` over shape `(5,)` indexes
axis 0 and `run_static` completes normally, contradicting the claim that
any `index < 0` is a configuration error. -/
theorem negative_axis_accepted :
    npFancyIndex [5] [-1] = some [5]
    ∧ (run_static tfc (mkReq [] [5] [-1] "STATIC") 0 1).isOk = true := by
  refine ⟨?_, ?_⟩ <;> rfl

/-- C9 (amended): the constructor performs NO validation of `split_axes`
(it only checks MPI availability), and construction always succeeds; the
error for an out-of-range index (`index >= rank` or `index < -rank`, i.e.
`pyIdx` fails) surfaces as an `IndexError` at the very first step of
`run_static` (line 100), before any block computation and before any task
invocation; negative indices in `[-rank, 0)` wrap around and are accepted. -/
theorem invalid_axis_error_at_run (tf : List (String × Val) → Val)
    (tfParams : Option (List (String × Val))) (shape : List Nat) (sa : List Int)
    (name sched : String) (collect : Bool) (root rank wsize : Nat)
    (a : Int) (ha : a ∈ sa) (hbad : pyIdx shape.length a = none) :
    ∃ p, poa_init true tfParams shape sa name sched collect root = .ok p
      ∧ run_static tf p rank wsize = .error "IndexError" := by
  refine ⟨⟨tfParams.getD [], shape, sa, name, sched, collect, root⟩, rfl, ?_⟩
  rw [run_static]
  dsimp only
  rw [npFancyIndex_eq_none shape sa a ha hbad]

/-- Witness for the amended C9: `split_axes = [7]` over shape `(5,)`
(index 7 out of range for rank 1). -/
theorem invalid_axis_error_at_run_witness :
    ((7 : Int) ∈ ([7] : List Int) ∧ pyIdx ([5] : List Nat).length 7 = none)
    ∧ ∃ p, poa_init true (some []) [5] [7] "data" "STATIC" true 0 = .ok p
      ∧ run_static tfc p 0 1 = .error "IndexError" :=
  ⟨⟨by decide, by decide⟩,
    invalid_axis_error_at_run tfc (some []) [5] [7] "data" "STATIC" true 0 0 1 7
      (by decide) (by decide)⟩

/-- C10: any schedule string other than "STATIC" and "DYNAMIC" is accepted
unchecked by the constructor, and `run()` then matches neither branch of
lines 82-85 and falls through, returning `None` without raising and without
any task invocation (no scheduler is ever entered), leaving the stored
parameters untouched. -/
theorem unknown_schedule_returns_none (tf : List (String × Val) → Val)
    (tfParams : Option (List (String × Val))) (shape : List Nat) (sa : List Int)
    (name : String) (collect : Bool) (root rank wsize : Nat)
    (sched : String) (h₁ : sched ≠ "STATIC") (h₂ : sched ≠ "DYNAMIC") :
    ∃ p, poa_init true tfParams shape sa name sched collect root = .ok p
      ∧ p.schedule = sched
      ∧ run_single tf p rank wsize = .ok (.noneRet p.task_function_params) := by
  refine ⟨⟨tfParams.getD [], shape, sa, name, sched, collect, root⟩, rfl, rfl, ?_⟩
  rw [run_single]
  dsimp only
  rw [if_neg h₂, if_neg h₁]

/-- Witness for C10 with the unrecognized schedule string "FOO". -/
theorem unknown_schedule_returns_none_witness :
    (("FOO" : String) ≠ "STATIC" ∧ ("FOO" : String) ≠ "DYNAMIC")
    ∧ ∃ p, poa_init true (some []) [4] [0] "data" "FOO" true 0 = .ok p
      ∧ p.schedule = "FOO"
      ∧ run_single tfc p 0 4 = .ok (.noneRet p.task_function_params) :=
  ⟨⟨by decide, by decide⟩,
    unknown_schedule_returns_none tfc (some []) [4] [0] "data" true 0 0 4 "FOO"
      (by decide) (by decide)⟩

lemma run_static_ranks_ok (tf : List (String × Val) → Val) (p : POA) (wsize : Nat)
    (h : ∀ r, r < wsize → ∃ out, run_static tf p r wsize = .ok out) :
    ∀ w, w ≤ wsize → ∃ l, run_static_ranks tf p wsize w = .ok l ∧ l.length = w := by
  intro w
  induction w with
  | zero => exact fun _ => ⟨[], rfl, rfl⟩
  | succ v ih =>
    intro hv₁
    obtain ⟨l, hl, hlen⟩ := ih (by omega)
    obtain ⟨out, hout⟩ := h v (by omega)
    refine ⟨l ++ [out], ?_, by simp [hlen]⟩
    rw [run_static_ranks, hl, hout]

/-- C7 (code bug): when `total_subblocks` is smaller than the number of
participating processes the run is NOT a graceful degradation to idleness.
Dynamic case, 3 ranks over shape `(2,)` (`total_subblocks = 2`): the status
array `np.zeros(size, "bool")` is sized with the REDUCED count 2 (line 182)
but indexed by the requesting rank (line 192), so when rank 2 requests work
during the termination loop the coordinator raises `IndexError`
(trace `[1, 2, 2]`); in the alternative arrival order `[1, 1, 1, 2]` the
loop exits after terminating rank 1 only, leaving rank 2's request forever
unanswered (a deadlocked worker, and rank 2's dispatched block 1 is missing
from the collected result).  Static case, 4 ranks over shape `(2,)`: the
"idle" rank 2 still invokes the task, on the empty out-of-range slice
`[2:3)`, instead of invoking no task. -/
theorem insufficient_workload_bug :
    (dynCoordinator 3 0 [2] [0] true [1, 2, 2]).map (fun c => c.outcome)
      = .ok .indexError
    ∧ (dynCoordinator 3 0 [2] [0] true [1, 1, 1, 2]).map (fun c => c.outcome)
      = .ok (.done [0, 1] [2])
    ∧ (run_static tfc (mkReq [] [2] [0] "STATIC") 2 4).map (fun o => o.invocations)
      = .ok [[("data", Val.dataSlice [Sel.slice 2 3])]]
    ∧ effSize [2] 4 = 2 := by
  refine ⟨?_, ?_, ?_, ?_⟩ <;> rfl

/-- C2: for every valid request (in-range, non-negative, distinct split
axes), the coordinator's dispatch sequence pairs the contiguous indices
`0 .. total_subblocks - 1`, in order, with the successive elements of the
Cartesian product of the per-axis selection lists (coordinate ranges on
split axes, the full slice elsewhere); the selections are pairwise
distinct and the pair list has no duplicates, so every work item is
dispatched exactly once, and membership in the tuple list is exactly
membership in the per-axis Cartesian product. -/
theorem dynamic_dispatch_enumeration (shape : List Nat) (sa : List Int)
    (hv : ∀ a ∈ sa, 0 ≤ a ∧ a < (shape.length : Int)) (hnd : sa.Nodup) :
    ∃ base,
      dyn_base_blocks shape sa = some base
      ∧ base = (List.range shape.length).map
          (fun (i : Nat) => if (i : Int) ∈ sa then splitCoords shape i else [Sel.full])
      ∧ npFancyIndex shape sa = some (sa.map (fun a => shape.getD a.toNat 0))
      ∧ (cartProd base).length = (sa.map (fun a => shape.getD a.toNat 0)).prod
      ∧ (dyn_dispatch_pairs (cartProd base)).map Prod.fst
          = List.range ((sa.map (fun a => shape.getD a.toNat 0)).prod)
      ∧ (dyn_dispatch_pairs (cartProd base)).Nodup
      ∧ (cartProd base).Nodup
      ∧ (∀ t, t ∈ cartProd base ↔ List.Forall₂ (fun s l => s ∈ l) t base) := by
  refine ⟨_, dyn_base_blocks_of_valid shape sa hv, rfl,
    npFancyIndex_of_valid _ _ hv, cartProd_base_length shape sa hv hnd, ?_, ?_, ?_, ?_⟩
  · rw [dyn_dispatch_pairs, List.map_fst_zip _ _ (by simp),
      cartProd_base_length shape sa hv hnd]
  · apply List.Nodup.of_map Prod.fst
    rw [dyn_dispatch_pairs, List.map_fst_zip _ _ (by simp)]
    exact List.nodup_range _
  · apply nodup_cartProd
    intro l hl
    obtain ⟨i, _, rfl⟩ := List.mem_map.mp hl
    by_cases h : (i : Int) ∈ sa
    · rw [if_pos h, splitCoords]
      refine List.Nodup.map ?_ (List.nodup_range _)
      intro c₁ c₂ hc
      injection hc
    · rw [if_neg h]
      exact List.nodup_singleton _
  · intro t
    exact mem_cartProd _ t

/-- Witness for C2 at shape `(2,3)`, `split_axes [0,1]` (spec Scenario D:
6 work items). -/
theorem dynamic_dispatch_enumeration_witness :
    ((∀ a ∈ ([0, 1] : List Int), 0 ≤ a ∧ a < (([2, 3] : List Nat).length : Int))
      ∧ ([0, 1] : List Int).Nodup)
    ∧ ∃ base,
      dyn_base_blocks [2, 3] [0, 1] = some base
      ∧ base = (List.range ([2, 3] : List Nat).length).map
          (fun (i : Nat) => if (i : Int) ∈ ([0, 1] : List Int) then splitCoords [2, 3] i
            else [Sel.full])
      ∧ npFancyIndex [2, 3] [0, 1]
          = some (([0, 1] : List Int).map (fun a => ([2, 3] : List Nat).getD a.toNat 0))
      ∧ (cartProd base).length
          = (([0, 1] : List Int).map (fun a => ([2, 3] : List Nat).getD a.toNat 0)).prod
      ∧ (dyn_dispatch_pairs (cartProd base)).map Prod.fst
          = List.range ((([0, 1] : List Int).map
              (fun a => ([2, 3] : List Nat).getD a.toNat 0)).prod)
      ∧ (dyn_dispatch_pairs (cartProd base)).Nodup
      ∧ (cartProd base).Nodup
      ∧ (∀ t, t ∈ cartProd base ↔ List.Forall₂ (fun s l => s ∈ l) t base) :=
  ⟨⟨by decide, by decide⟩,
    dynamic_dispatch_enumeration [2, 3] [0, 1] (by decide) (by decide)⟩

/-- C3 (amended): aggregation sizes, for requests where no process-count
reduction occurs (`total_subblocks ≥ wsize`).  Dynamic schedule: for any
arrival order in which the first `total_subblocks` requests come from
workers and afterwards each worker's final request arrives exactly once,
the coordinator terminates with collected keys that are exactly
`{0 .. total_subblocks - 1}`, none missing, none duplicated - with no
requirement on the largest split-axis extent (e.g. spec Scenario D, shape
`(2,3)`, 4 ranks, where `S = 3 < 4`).  Static schedule: whenever
additionally the static check passes (`S ≥ wsize`), every rank returns a
result and the gather on line 132 materializes one PartialResult per
COMMUNICATOR rank, ordered by ascending rank - so the aggregate's size is
the communicator size `wsize` (which equals the effective process count
here; the original claim fails when a reduction occurs, see the
counterexample). -/
theorem aggregation_sizes (tf : List (String × Val) → Val) (p : POA)
    (wsize : Nat) (ax : List Nat) (requests : List Nat)
    (hax : npFancyIndex p.main_data_shape p.split_axes = some ax)
    (hv : ∀ a ∈ p.split_axes, 0 ≤ a ∧ a < (p.main_data_shape.length : Int))
    (hnd : p.split_axes.Nodup)
    (hne : ax ≠ [])
    (hW : 2 ≤ wsize)
    (htot : wsize ≤ ax.prod)
    (hroot : p.root = 0)
    (hreq : requests.length = ax.prod + (wsize - 1))
    (hph1 : ∀ r ∈ requests.take ax.prod, 1 ≤ r ∧ r < wsize)
    (hph2set : (requests.drop ax.prod).toFinset = Finset.Ioo 0 wsize)
    (hph2nd : (requests.drop ax.prod).Nodup) :
    (¬ ax.getD (argmaxLast ax) 0 < wsize →
      ∃ l, run_static_all tf p wsize = .ok l ∧ l.length = wsize)
    ∧ (∃ keys, (dynCoordinator wsize p.root p.main_data_shape p.split_axes true
          requests).map (fun c => c.outcome) = .ok (.done keys [])
        ∧ keys.Nodup ∧ keys.length = ax.prod ∧ (∀ i, i ∈ keys ↔ i < ax.prod)) := by
  have hax_eq : ax = p.split_axes.map (fun a => p.main_data_shape.getD a.toNat 0) := by
    have h := npFancyIndex_of_valid p.main_data_shape p.split_axes hv
    rw [hax] at h
    exact Option.some.inj h
  have hlt : argmaxLast ax < p.main_data_shape.length := by
    have h1 : argmaxLast ax < ax.length := argmaxLast_lt_length ax hne
    have h2 : ax.length = p.split_axes.length := by rw [hax_eq, List.length_map]
    have h3 : p.split_axes.length ≤ p.main_data_shape.length :=
      valid_axes_length_le _ _ hv hnd
    omega
  have heff : effSize ax wsize = wsize := by
    rw [effSize, if_neg (by omega)]
  constructor
  · intro hS
    have hstatic : ∀ r, r < wsize → ∃ out, run_static tf p r wsize = .ok out := by
      intro r _
      exact ⟨_, run_static_eq_ok tf p r wsize ax hax hne
        (by rw [heff]; exact hS) (by rw [heff]; omega) hlt⟩
    obtain ⟨l, hl, hlen⟩ := run_static_ranks_ok tf p wsize hstatic wsize le_rfl
    exact ⟨l, by rw [run_static_all, hl], hlen⟩
  · have hbase := dyn_base_blocks_of_valid p.main_data_shape p.split_axes hv
    have hN : (cartProd ((List.range p.main_data_shape.length).map
        (fun (i : Nat) => if (i : Int) ∈ p.split_axes then splitCoords p.main_data_shape i
          else [Sel.full]))).length = ax.prod := by
      rw [cartProd_base_length _ _ hv hnd, ← hax_eq]
    rw [hroot, dynCoordinator, hax, hbase]
    dsimp only
    rw [hN]
    rw [if_neg (show ¬ requests.length < ax.prod by omega)]
    have hif : (if ax.prod < wsize then ax.prod else wsize) = wsize := if_neg (by omega)
    rw [hif]
    rw [if_pos (show 0 < wsize by omega)]
    have hph1len : (requests.take ax.prod).length = ax.prod := by
      rw [List.length_take]
      omega
    have hstatus : ∀ r : Nat, r ∈ requests.drop ax.prod ↔
        ∃ h : r < ((List.replicate wsize false).set 0 true).length,
          ((List.replicate wsize false).set 0 true)[r] = false := by
      intro r
      have hmem : r ∈ requests.drop ax.prod ↔ (0 < r ∧ r < wsize) := by
        rw [← List.mem_toFinset, hph2set, Finset.mem_Ioo]
      rw [hmem]
      constructor
      · rintro ⟨h0, hw⟩
        have hlen₂ : r < ((List.replicate wsize false).set 0 true).length := by
          simp only [List.length_set, List.length_replicate]
          omega
        refine ⟨hlen₂, ?_⟩
        rw [List.getElem_set_ne (by omega)]
        simp
      · rintro ⟨h, hf⟩
        have hw : r < wsize := by
          simpa using h
        refine ⟨?_, hw⟩
        by_contra h0
        have hr0 : r = 0 := by omega
        subst hr0
        rw [List.getElem_set_self] at hf
        cases hf
    have hdrain := drain_runs_to_done (assignedKeys ax.prod (requests.take ax.prod))
      (requests.drop ax.prod) ((List.replicate wsize false).set 0 true) [] hph2nd hstatus
    have hsub : ∀ r ∈ requests.take ax.prod, r ∈ requests.drop ax.prod := by
      intro r hr
      have h1 := hph1 r hr
      rw [← List.mem_toFinset, hph2set, Finset.mem_Ioo]
      omega
    refine ⟨(requests.drop ax.prod).flatMap (assignedKeys ax.prod (requests.take ax.prod)),
      ?_, ?_, ?_, ?_⟩
    · simp only [Except.map]
      rw [hdrain, List.nil_append]
    · exact flatMap_assignedKeys_nodup _ _ _ hph1len hph2nd
    · exact flatMap_assignedKeys_length _ _ _ hph1len hph2nd hsub
    · exact mem_flatMap_assignedKeys _ _ _ hph1len hsub

/-- Witness for the amended C3, applying the theorem twice.  First at
shape `(2,)`, `split_axes [0]`, 2 ranks, request trace `[1, 1, 1]`
(worker 1 pulls both blocks and is then terminated), where the static
conjunct's premise `S = 2 ≥ 2` also holds, so the gather result of size 2
is exhibited.  Second at spec Scenario D - shape `(2, 3)`,
`split_axes [0, 1]`, 4 ranks, trace `[1,2,3,1,2,3,1,2,3]` - where
`total_subblocks = 6 ≥ 4` but `S = 3 < 4`: the dynamic conjunct still
yields the complete key set `{0..5}`. -/
theorem aggregation_sizes_witness :
    ((npFancyIndex (mkReq [] [2] [0] "DYNAMIC").main_data_shape
        (mkReq [] [2] [0] "DYNAMIC").split_axes = some [2]
      ∧ (∀ a ∈ (mkReq [] [2] [0] "DYNAMIC").split_axes,
          0 ≤ a ∧ a < ((mkReq [] [2] [0] "DYNAMIC").main_data_shape.length : Int))
      ∧ (mkReq [] [2] [0] "DYNAMIC").split_axes.Nodup
      ∧ ([2] : List Nat) ≠ []
      ∧ 2 ≤ 2
      ∧ 2 ≤ ([2] : List Nat).prod
      ∧ (mkReq [] [2] [0] "DYNAMIC").root = 0
      ∧ ([1, 1, 1] : List Nat).length = ([2] : List Nat).prod + (2 - 1)
      ∧ (∀ r ∈ ([1, 1, 1] : List Nat).take (([2] : List Nat).prod), 1 ≤ r ∧ r < 2)
      ∧ (([1, 1, 1] : List Nat).drop (([2] : List Nat).prod)).toFinset = Finset.Ioo 0 2
      ∧ (([1, 1, 1] : List Nat).drop (([2] : List Nat).prod)).Nodup
      ∧ ¬ ([2] : List Nat).getD (argmaxLast [2]) 0 < 2)
    ∧ (∃ l, run_static_all tfc (mkReq [] [2] [0] "DYNAMIC") 2 = .ok l ∧ l.length = 2)
    ∧ (∃ keys, (dynCoordinator 2 (mkReq [] [2] [0] "DYNAMIC").root
          (mkReq [] [2] [0] "DYNAMIC").main_data_shape
          (mkReq [] [2] [0] "DYNAMIC").split_axes true [1, 1, 1]).map
            (fun c => c.outcome) = .ok (.done keys [])
        ∧ keys.Nodup ∧ keys.length = ([2] : List Nat).prod
        ∧ (∀ i, i ∈ keys ↔ i < ([2] : List Nat).prod)))
    ∧ ((npFancyIndex (mkReq [] [2, 3] [0, 1] "DYNAMIC").main_data_shape
        (mkReq [] [2, 3] [0, 1] "DYNAMIC").split_axes = some [2, 3]
      ∧ (∀ a ∈ (mkReq [] [2, 3] [0, 1] "DYNAMIC").split_axes,
          0 ≤ a ∧ a < ((mkReq [] [2, 3] [0, 1] "DYNAMIC").main_data_shape.length : Int))
      ∧ (mkReq [] [2, 3] [0, 1] "DYNAMIC").split_axes.Nodup
      ∧ ([2, 3] : List Nat) ≠ []
      ∧ 2 ≤ 4
      ∧ 4 ≤ ([2, 3] : List Nat).prod
      ∧ (mkReq [] [2, 3] [0, 1] "DYNAMIC").root = 0
      ∧ ([1, 2, 3, 1, 2, 3, 1, 2, 3] : List Nat).length
          = ([2, 3] : List Nat).prod + (4 - 1)
      ∧ (∀ r ∈ ([1, 2, 3, 1, 2, 3, 1, 2, 3] : List Nat).take (([2, 3] : List Nat).prod),
          1 ≤ r ∧ r < 4)
      ∧ (([1, 2, 3, 1, 2, 3, 1, 2, 3] : List Nat).drop
          (([2, 3] : List Nat).prod)).toFinset = Finset.Ioo 0 4
      ∧ (([1, 2, 3, 1, 2, 3, 1, 2, 3] : List Nat).drop
          (([2, 3] : List Nat).prod)).Nodup
      ∧ ([2, 3] : List Nat).getD (argmaxLast [2, 3]) 0 < 4)
    ∧ (∃ keys, (dynCoordinator 4 (mkReq [] [2, 3] [0, 1] "DYNAMIC").root
          (mkReq [] [2, 3] [0, 1] "DYNAMIC").main_data_shape
          (mkReq [] [2, 3] [0, 1] "DYNAMIC").split_axes true
          [1, 2, 3, 1, 2, 3, 1, 2, 3]).map
            (fun c => c.outcome) = .ok (.done keys [])
        ∧ keys.Nodup ∧ keys.length = ([2, 3] : List Nat).prod
        ∧ (∀ i, i ∈ keys ↔ i < ([2, 3] : List Nat).prod))) :=
  ⟨⟨⟨by decide, by decide, by decide, by decide, by decide, by decide, by decide,
      by decide, by decide, by decide, by decide, by decide⟩,
    (aggregation_sizes tfc (mkReq [] [2] [0] "DYNAMIC") 2 [2] [1, 1, 1]
        (by decide) (by decide) (by decide) (by decide) (by decide) (by decide)
        (by decide) (by decide) (by decide) (by decide) (by decide)).1 (by decide),
    (aggregation_sizes tfc (mkReq [] [2] [0] "DYNAMIC") 2 [2] [1, 1, 1]
        (by decide) (by decide) (by decide) (by decide) (by decide) (by decide)
        (by decide) (by decide) (by decide) (by decide) (by decide)).2⟩,
    ⟨⟨by decide, by decide, by decide, by decide, by decide, by decide, by decide,
      by decide, by decide, by decide, by decide, by decide⟩,
    (aggregation_sizes tfc (mkReq [] [2, 3] [0, 1] "DYNAMIC") 4 [2, 3]
        [1, 2, 3, 1, 2, 3, 1, 2, 3]
        (by decide) (by decide) (by decide) (by decide) (by decide) (by decide)
        (by decide) (by decide) (by decide) (by decide) (by decide)).2⟩⟩

/-- C3 counterexample: the static conjunct of the claim is false when a
process-count reduction occurs.  Shape `(2,)`, `split_axes [0]`, 4 ranks:
the effective process count is `min(4, total_subblocks) = 2`, but the
collective gather (line 132) receives a result from EVERY rank of the
communicator - including the two "idle" ranks, which ran the task on empty
slices - so the aggregate has 4 entries, not 2. -/
theorem aggregation_static_counterexample :
    (run_static_all tfc (mkReq [] [2] [0] "STATIC") 4).map (fun l => l.length) = .ok 4
    ∧ effSize [2] 4 = 2
    ∧ (4 : Nat) ≠ 2 := by
  refine ⟨rfl, rfl, by decide⟩
